import Mathlib

/-!
Verification of the Azure DevOps pull-request adapter.

Go strings are modelled as `List Char`. The relevant Go standard-library
string operations (`strings.HasPrefix`, `strings.TrimPrefix`,
`strings.TrimSuffix`, `strings.Contains`, `strings.Split` with a
one-character separator) are embedded as executable functions below, and the
two variants of the package (`internal/azuredevops/azuredevops.go` and the
second variant, here called `Part000`) are translated on top of them.
A Go runtime abort from an out-of-range slice index is modelled by the
`GoOutcome.crash` outcome, distinct from an error return.
-/

set_option maxRecDepth 10000

/-- Go `strings.HasPrefix s p`: `true` when `p` is an initial segment of `s`. -/
def goHasPre : List Char → List Char → Bool
  | _, [] => true
  | [], _ :: _ => false
  | c :: s, d :: p => if c = d then goHasPre s p else false

/-- Go `strings.TrimPrefix s p`: drops a leading `p` when present, else `s`. -/
def goTrimPre (s p : List Char) : List Char :=
  if goHasPre s p then s.drop p.length else s

/-- Go `strings.HasSuffix s p`. -/
def goHasSuf (s p : List Char) : Bool :=
  goHasPre s.reverse p.reverse

/-- Go `strings.TrimSuffix s p`: drops a trailing `p` when present, else `s`. -/
def goTrimSuf (s p : List Char) : List Char :=
  if goHasSuf s p then s.take (s.length - p.length) else s

/-- Go `strings.Contains s sub`. -/
def goContains : List Char → List Char → Bool
  | [], sub => goHasPre [] sub
  | c :: s, sub => goHasPre (c :: s) sub || goContains s sub

/-- Go `strings.Split s sep` for a one-character separator `sep`
(the only form the code uses). `strings.Split "" sep = [""]`. -/
def goSplit (sep : Char) : List Char → List (List Char)
  | [] => [[]]
  | c :: s =>
    if c = sep then [] :: goSplit sep s
    else
      match goSplit sep s with
      | [] => [[c]]
      | h :: t => (c :: h) :: t

/-- Outcome of a Go function call: a normal value, an error return, or a
runtime abort (index out of range). -/
inductive GoOutcome (α : Type) where
  | ok : α → GoOutcome α
  | err : List Char → GoOutcome α
  | crash : GoOutcome α
deriving DecidableEq

/-- The error text `invalid Azure DevOps repository URL format`. -/
def invalidMsg : List Char := "invalid Azure DevOps repository URL format".toList

/-- The error text `unsupported Azure DevOps repository URL format`. -/
def unsupportedMsg : List Char := "unsupported Azure DevOps repository URL format".toList

/-- The literal `https://dev.azure.com/` stripped from the URL. -/
def httpsDevAzure : List Char := "https://dev.azure.com/".toList

/-- The host fragment `dev.azure.com` tested by `strings.Contains`. -/
def devAzureHost : List Char := "dev.azure.com".toList

/-- The host fragment `.visualstudio.com` tested by `strings.Contains`. -/
def vsHost : List Char := ".visualstudio.com".toList

/-- The `.git` ending stripped from repository names. -/
def gitSuf : List Char := ".git".toList

/-- The `refs/heads/` ref namespace required by Azure DevOps. -/
def refsHeads : List Char := "refs/heads/".toList

/-- The `dev.azure.com` branch of `parseAzureDevOpsURL`
(azuredevops.go lines 16-23): trim the `https://dev.azure.com/` lead,
split on `/`, demand at least 4 segments, return segments 0, 1 and 3
(the latter with `.git` stripped). -/
def devAzureRule (repoURL : List Char) :
    GoOutcome (List Char × List Char × List Char) :=
  let urlParts := goSplit '/' (goTrimPre repoURL httpsDevAzure)
  if urlParts.length < 4 then .err invalidMsg
  else
    match urlParts[0]?, urlParts[1]?, urlParts[3]? with
    | some org, some proj, some repo => .ok (org, proj, goTrimSuf repo gitSuf)
    | _, _, _ => .crash

/-- The `.visualstudio.com` branch of `parseAzureDevOpsURL`
(azuredevops.go lines 24-31): split the whole URL on `/`, demand at least
5 segments, then read segments 2 (subdomain before the first `.`), 3 and 5.
Reading segment 5 of a 5-segment split is an out-of-range access, i.e.
`crash`. -/
def vsRule (repoURL : List Char) :
    GoOutcome (List Char × List Char × List Char) :=
  let urlParts := goSplit '/' repoURL
  if urlParts.length < 5 then .err invalidMsg
  else
    match urlParts[2]?, urlParts[3]?, urlParts[5]? with
    | some host, some proj, some repo =>
      match (goSplit '.' host)[0]? with
      | some org => .ok (org, proj, goTrimSuf repo gitSuf)
      | none => .crash
    | _, _, _ => .crash

/-- `parseAzureDevOpsURL` (azuredevops.go lines 15-36): dispatch on which
host fragment the URL contains, `dev.azure.com` first. -/
def parseAzureDevOpsURL (repoURL : List Char) :
    GoOutcome (List Char × List Char × List Char) :=
  if goContains repoURL devAzureHost then devAzureRule repoURL
  else if goContains repoURL vsHost then vsRule repoURL
  else .err unsupportedMsg

/-- Modelled from the spec: `gitutil.RepoCredentials` comes from the
repository's `pkg/git` package, which is not part of the two given files;
the spec says it "holds a password/token used as the PAT". Only the
password field is read by this code. -/
structure RepoCredentials where
  password : List Char
deriving DecidableEq

/-- The fields of the SDK's `git.GitRepository` that this code reads:
`Name` (dereferenced for comparison) and `Id` (a `*uuid.UUID`, possibly
nil, returned as-is). `υ` abstracts the UUID payload. -/
structure GitRepository (υ : Type) where
  name : List Char
  id : Option υ
deriving DecidableEq

/-- Labels for the three outbound SDK calls, recorded in order. -/
inductive ExtCall where
  | newClient
  | getRepositories
  | createPullRequest
deriving DecidableEq

/-- Results the hosted Azure DevOps API would give to each outbound call:
`git.NewClient`, `client.GetRepositories` (which may return a nil listing),
and `client.CreatePullRequest` (whose success carries the PR URL). -/
structure GitEnv (υ : Type) where
  newClient : Except (List Char) Unit
  getRepositories : Except (List Char) (Option (List (GitRepository υ)))
  createPullRequest : Except (List Char) (List Char)

/-- The wrapping text `error listing repositories: `. -/
def errListing : List Char := "error listing repositories: ".toList

/-- The wrapping text `error creating Azure DevOps Git client: `. -/
def errClientMsg : List Char := "error creating Azure DevOps Git client: ".toList

/-- The wrapping text `error creating pull request: `. -/
def errCreateMsg : List Char := "error creating pull request: ".toList

/-- The error text returned when the password is empty. -/
def patMsg : List Char :=
  "Azure DevOps requires a Personal Access Token (PAT) as password".toList

/-- The not-found error text of `getRepositoryID`, interpolating the
repository and project names. -/
def notFoundMsg (repository project : List Char) : List Char :=
  "repository \x27".toList ++ repository ++
    "\x27 not found in project \x27".toList ++ project ++ "\x27".toList

/-- The `for` loop of `getRepositoryID` (azuredevops.go lines 48-53):
first repository in listing order whose name equals `repository`. -/
def findRepo {υ : Type} (repository : List Char) :
    List (GitRepository υ) → Option (GitRepository υ)
  | [] => none
  | r :: rs => if r.name = repository then some r else findRepo repository rs

/-- `getRepositoryID` (azuredevops.go lines 39-56), with the
`client.GetRepositories` call's result passed in as `listing`. -/
def getRepositoryID {υ : Type} (project repository : List Char)
    (listing : Except (List Char) (Option (List (GitRepository υ)))) :
    Except (List Char) (Option υ) :=
  match listing with
  | .error e => .error (errListing ++ e)
  | .ok none => .error (notFoundMsg repository project)
  | .ok (some repos) =>
    match findRepo repository repos with
    | some r => .ok r.id
    | none => .error (notFoundMsg repository project)

/-- `ensureRefFormat` (azuredevops.go lines 123-128). -/
def ensureRefFormat (branchName : List Char) : List Char :=
  if !goHasPre branchName refsHeads then
    refsHeads ++ goTrimPre branchName refsHeads
  else branchName

/-- `OpenPR` (azuredevops.go lines 59-120), the credential-checking
variant. External calls are answered by `env` and recorded in order in the
second component; the result is the returned PR URL or error. -/
def OpenPR {υ : Type}
    (repoURL _title _description targetBranch sourceBranch : List Char)
    (creds : RepoCredentials) (env : GitEnv υ) :
    GoOutcome (List Char) × List ExtCall :=
  if creds.password = [] then (.err patMsg, [])
  else
    match parseAzureDevOpsURL repoURL with
    | .crash => (.crash, [])
    | .err e => (.err e, [])
    | .ok (_organization, project, repository) =>
      match env.newClient with
      | .error e => (.err (errClientMsg ++ e), [.newClient])
      | .ok _ =>
        match getRepositoryID project repository env.getRepositories with
        | .error e => (.err e, [.newClient, .getRepositories])
        | .ok _repoUUID =>
          let _src := ensureRefFormat sourceBranch
          let _tgt := ensureRefFormat targetBranch
          match env.createPullRequest with
          | .error e =>
            (.err (errCreateMsg ++ e),
              [.newClient, .getRepositories, .createPullRequest])
          | .ok url =>
            (.ok url, [.newClient, .getRepositories, .createPullRequest])

/-- `ensureRefFormat` of the second variant (part_000 lines 74-79);
its Go text is identical to the first variant's. -/
def Part000.ensureRefFormat (branchName : List Char) : List Char :=
  if !goHasPre branchName refsHeads then
    refsHeads ++ goTrimPre branchName refsHeads
  else branchName

/-- `OpenPR` of the second variant (part_000 lines 14-70): no credential
check, the `dev.azure.com` parse inlined with no host test, no repository
lookup, repository addressed by name in the request payload. -/
def Part000.OpenPR {υ : Type}
    (repoURL _title _description targetBranch sourceBranch : List Char)
    (_creds : RepoCredentials) (env : GitEnv υ) :
    GoOutcome (List Char) × List ExtCall :=
  let urlParts := goSplit '/' (goTrimPre repoURL httpsDevAzure)
  if urlParts.length < 4 then (.err invalidMsg, [])
  else
    match urlParts[0]?, urlParts[1]?, urlParts[3]? with
    | some _organization, some _project, some repository0 =>
      let _repository := goTrimSuf repository0 gitSuf
      match env.newClient with
      | .error e => (.err (errClientMsg ++ e), [.newClient])
      | .ok _ =>
        let _src := Part000.ensureRefFormat sourceBranch
        let _tgt := Part000.ensureRefFormat targetBranch
        match env.createPullRequest with
        | .error e =>
          (.err (errCreateMsg ++ e), [.newClient, .createPullRequest])
        | .ok url => (.ok url, [.newClient, .createPullRequest])
    | _, _, _ => (.crash, [])

/-- The simplified normalization the spec proposes in its Design Notes:
a plain check for the `refs/heads/` lead plus concatenation. -/
def ensureRefFormatSimple (branchName : List Char) : List Char :=
  if goHasPre branchName refsHeads then branchName
  else refsHeads ++ branchName

/-! Helper lemmas about the embedded Go string operations. -/

theorem goHasPre_append (p s : List Char) : goHasPre (p ++ s) p = true := by
  induction p with
  | nil => simp [goHasPre]
  | cons c p ih => simp [goHasPre, ih]

theorem goDrop_append (p s : List Char) : (p ++ s).drop p.length = s := by
  induction p with
  | nil => simp
  | cons c p ih => simp [ih]

theorem goTrimPre_append (p s : List Char) : goTrimPre (p ++ s) p = s := by
  simp [goTrimPre, goHasPre_append, goDrop_append]

theorem goTrimPre_of_no_pre (s p : List Char) (h : goHasPre s p = false) :
    goTrimPre s p = s := by
  simp [goTrimPre, h]

theorem goContains_of_goHasPre (x s : List Char) (h : goHasPre x s = true) :
    goContains x s = true := by
  cases x with
  | nil => simpa [goContains] using h
  | cons c t => simp [goContains, h]

theorem goContains_append_left (a x s : List Char)
    (h : goContains x s = true) : goContains (a ++ x) s = true := by
  induction a with
  | nil => exact h
  | cons c a ih => simp [goContains, ih]

theorem goContains_mid (a s b : List Char) :
    goContains (a ++ (s ++ b)) s = true :=
  goContains_append_left a (s ++ b) s
    (goContains_of_goHasPre (s ++ b) s (goHasPre_append s b))

theorem goSplit_ne_nil (sep : Char) (l : List Char) : goSplit sep l ≠ [] := by
  cases l with
  | nil => simp [goSplit]
  | cons c t =>
    by_cases hc : c = sep
    · simp [goSplit, hc]
    · simp only [goSplit, if_neg hc]
      cases goSplit sep t <;> simp

theorem goSplit_sep_cons (sep : Char) (l₁ l₂ : List Char) (h : sep ∉ l₁) :
    goSplit sep (l₁ ++ sep :: l₂) = l₁ :: goSplit sep l₂ := by
  induction l₁ with
  | nil => simp [goSplit]
  | cons c t ih =>
    have hc : ¬ c = sep := fun hcs => h (hcs ▸ List.mem_cons_self c t)
    have ht : sep ∉ t := fun hm => h (List.mem_cons_of_mem c hm)
    show (if c = sep then [] :: goSplit sep (t ++ sep :: l₂)
          else
            match goSplit sep (t ++ sep :: l₂) with
            | [] => [[c]]
            | h :: t2 => (c :: h) :: t2)
        = (c :: t) :: goSplit sep l₂
    rw [if_neg hc, ih ht]

theorem goSplit_no_sep (sep : Char) (l : List Char) (h : sep ∉ l) :
    goSplit sep l = [l] := by
  induction l with
  | nil => simp [goSplit]
  | cons c t ih =>
    have hc : ¬ c = sep := fun hcs => h (hcs ▸ List.mem_cons_self c t)
    have ht : sep ∉ t := fun hm => h (List.mem_cons_of_mem c hm)
    simp only [goSplit, if_neg hc, ih ht]

/-- Evaluation of the parser on a `dev.azure.com`-shaped URL built from
slash-free segments o, p, r. -/
theorem devShape_parse (o p r : List Char)
    (ho : '/' ∉ o) (hp : '/' ∉ p) (hr : '/' ∉ r) :
    parseAzureDevOpsURL
        (httpsDevAzure ++ (o ++ '/' :: (p ++ '/' :: ("_git".toList ++ '/' :: r))))
      = .ok (o, p, goTrimSuf r gitSuf) := by
  have h1 : goContains
      (httpsDevAzure ++ (o ++ '/' :: (p ++ '/' :: ("_git".toList ++ '/' :: r))))
      devAzureHost = true :=
    goContains_mid "https://".toList devAzureHost
      ('/' :: (o ++ '/' :: (p ++ '/' :: ("_git".toList ++ '/' :: r))))
  have h2 : goSplit '/' (o ++ '/' :: (p ++ '/' :: ("_git".toList ++ '/' :: r)))
      = [o, p, "_git".toList, r] := by
    rw [goSplit_sep_cons '/' o _ ho, goSplit_sep_cons '/' p _ hp,
      goSplit_sep_cons '/' "_git".toList _ (by decide),
      goSplit_no_sep '/' r hr]
  have h3 : goTrimPre
      (httpsDevAzure ++ (o ++ '/' :: (p ++ '/' :: ("_git".toList ++ '/' :: r))))
      httpsDevAzure
      = o ++ '/' :: (p ++ '/' :: ("_git".toList ++ '/' :: r)) :=
    goTrimPre_append _ _
  simp at h1 h2 h3
  simp [parseAzureDevOpsURL, h1, devAzureRule, h3, h2]

/-- Evaluation of the parser on a `.visualstudio.com`-shaped URL
`https://` o `.visualstudio.com/` p `/` mid `/` r built from slash-free
segments with dot-free o, provided the whole URL does not contain
`dev.azure.com` (else the first branch fires). -/
theorem vsShape_parse (o p mid r : List Char)
    (hodot : '.' ∉ o) (ho : '/' ∉ o) (hp : '/' ∉ p) (hm : '/' ∉ mid)
    (hr : '/' ∉ r)
    (hdev : goContains
      ("https://".toList ++ ((o ++ '.' :: "visualstudio.com".toList) ++
        '/' :: (p ++ '/' :: (mid ++ '/' :: r)))) devAzureHost = false) :
    parseAzureDevOpsURL
        ("https://".toList ++ ((o ++ '.' :: "visualstudio.com".toList) ++
          '/' :: (p ++ '/' :: (mid ++ '/' :: r))))
      = .ok (o, p, goTrimSuf r gitSuf) := by
  have hhost : '/' ∉ o ++ '.' :: "visualstudio.com".toList := by
    intro hmem
    rcases List.mem_append.mp hmem with h | h
    · exact ho h
    · revert h; decide
  have h1 : goContains
      ("https://".toList ++ ((o ++ '.' :: "visualstudio.com".toList) ++
        '/' :: (p ++ '/' :: (mid ++ '/' :: r)))) vsHost = true := by
    apply goContains_append_left "https://".toList
    rw [List.append_assoc]
    exact goContains_mid o vsHost ('/' :: (p ++ '/' :: (mid ++ '/' :: r)))
  have e : "https://".toList ++ ((o ++ '.' :: "visualstudio.com".toList) ++
        '/' :: (p ++ '/' :: (mid ++ '/' :: r)))
      = "https:".toList ++ '/' :: ([] ++ '/' ::
          ((o ++ '.' :: "visualstudio.com".toList) ++
            '/' :: (p ++ '/' :: (mid ++ '/' :: r)))) := rfl
  have hsplit : goSplit '/'
      ("https://".toList ++ ((o ++ '.' :: "visualstudio.com".toList) ++
        '/' :: (p ++ '/' :: (mid ++ '/' :: r))))
      = ["https:".toList, [], o ++ '.' :: "visualstudio.com".toList,
          p, mid, r] := by
    rw [e, goSplit_sep_cons '/' "https:".toList _ (by decide),
      goSplit_sep_cons '/' [] _ (by simp),
      goSplit_sep_cons '/' (o ++ '.' :: "visualstudio.com".toList) _ hhost,
      goSplit_sep_cons '/' p _ hp, goSplit_sep_cons '/' mid _ hm,
      goSplit_no_sep '/' r hr]
  have hdot : goSplit '.' (o ++ '.' :: "visualstudio.com".toList)
      = o :: goSplit '.' "visualstudio.com".toList :=
    goSplit_sep_cons '.' o _ hodot
  simp at hdev h1 hsplit hdot
  simp [parseAzureDevOpsURL, hdev, h1, vsRule, hsplit, hdot]

/-! Helper lemmas about the repository scan. -/

theorem findRepo_of_mem {υ : Type} (repository : List Char)
    (repos : List (GitRepository υ))
    (h : ∃ r ∈ repos, r.name = repository) :
    ∃ r, findRepo repository repos = some r ∧ r ∈ repos ∧
      r.name = repository := by
  induction repos with
  | nil => simp at h
  | cons x rs ih =>
    by_cases hx : x.name = repository
    · exact ⟨x, by simp [findRepo, hx], List.mem_cons_self x rs, hx⟩
    · obtain ⟨r, hr, hname⟩ := h
      rcases List.mem_cons.mp hr with rfl | hr2
      · exact absurd hname hx
      · obtain ⟨r2, hfind, hmem, hname2⟩ := ih ⟨r, hr2, hname⟩
        exact ⟨r2, by simp [findRepo, hx, hfind],
          List.mem_cons_of_mem x hmem, hname2⟩

theorem findRepo_of_no_match {υ : Type} (repository : List Char)
    (repos : List (GitRepository υ))
    (h : ∀ r ∈ repos, r.name ≠ repository) :
    findRepo repository repos = none := by
  induction repos with
  | nil => rfl
  | cons x rs ih =>
    have hx : ¬ x.name = repository := h x (List.mem_cons_self x rs)
    simp [findRepo, hx, ih fun r hr => h r (List.mem_cons_of_mem x hr)]

theorem findRepo_append_first {υ : Type} (repository : List Char)
    (l₁ l₂ : List (GitRepository υ)) (r : GitRepository υ)
    (h₁ : ∀ x ∈ l₁, x.name ≠ repository) (hr : r.name = repository) :
    findRepo repository (l₁ ++ r :: l₂) = some r := by
  induction l₁ with
  | nil => simp [findRepo, hr]
  | cons x t ih =>
    have hx : ¬ x.name = repository := h₁ x (List.mem_cons_self x t)
    simp [findRepo, hx, ih fun y hy => h₁ y (List.mem_cons_of_mem x hy)]

/-! Helper lemmas about ref normalization. -/

theorem erf_eq_simple (x : List Char) :
    ensureRefFormat x = ensureRefFormatSimple x := by
  by_cases h : goHasPre x refsHeads = true
  · simp [ensureRefFormat, ensureRefFormatSimple, h]
  · have hf : goHasPre x refsHeads = false := by simpa using h
    simp [ensureRefFormat, ensureRefFormatSimple, hf,
      goTrimPre_of_no_pre x refsHeads hf]

theorem part000_erf_eq_simple (x : List Char) :
    Part000.ensureRefFormat x = ensureRefFormatSimple x := by
  by_cases h : goHasPre x refsHeads = true
  · simp [Part000.ensureRefFormat, ensureRefFormatSimple, h]
  · have hf : goHasPre x refsHeads = false := by simpa using h
    simp [Part000.ensureRefFormat, ensureRefFormatSimple, hf,
      goTrimPre_of_no_pre x refsHeads hf]

theorem simple_idem (x : List Char) :
    ensureRefFormatSimple (ensureRefFormatSimple x) = ensureRefFormatSimple x := by
  by_cases h : goHasPre x refsHeads = true
  · simp [ensureRefFormatSimple, h]
  · have hf : goHasPre x refsHeads = false := by simpa using h
    simp [ensureRefFormatSimple, hf, goHasPre_append]

/-! Claim theorems. -/

/-- C1: the claim states that every `.visualstudio.com` URL whose split has
too few path segments is rejected with an error return, never an
out-of-range abort, and in particular a URL whose split has exactly
5 segments. The code checks `len < 5` but then reads segment 5, so the
5-segment URL `https://myorg.visualstudio.com/myproj/myrepo` aborts with an
out-of-range access (`crash`) rather than returning an error. -/
theorem c1_vs_five_segments_crash :
    (goSplit '/' "https://myorg.visualstudio.com/myproj/myrepo".toList).length
        = 5 ∧
    parseAzureDevOpsURL "https://myorg.visualstudio.com/myproj/myrepo".toList
        = .crash := by
  decide

/-- C4: in the credential-checking variant, an empty password makes
`OpenPR` return the PAT error at once, with no external call recorded,
whatever the other arguments and however the API would have answered. -/
theorem c4_openpr_empty_password :
    ∀ (υ : Type) (repoURL t d tb sb : List Char) (creds : RepoCredentials)
      (env : GitEnv υ), creds.password = [] →
      OpenPR repoURL t d tb sb creds env = (.err patMsg, []) := by
  intro υ repoURL t d tb sb creds env h
  simp [OpenPR, h]

/-- Witness for C4 at a concrete input. -/
theorem c4_openpr_empty_password_witness :
    (⟨[]⟩ : RepoCredentials).password = [] ∧
    OpenPR "u".toList [] [] [] [] ⟨[]⟩
        (⟨.ok (), .ok none, .ok []⟩ : GitEnv Nat)
      = (.err patMsg, []) :=
  ⟨rfl, c4_openpr_empty_password Nat "u".toList [] [] [] [] ⟨[]⟩
    ⟨.ok (), .ok none, .ok []⟩ rfl⟩

/-- C6: ref normalization is idempotent in both variants, and maps `main`
to `refs/heads/main` and `refs/heads/main` to itself. -/
theorem c6_ensureRefFormat_idem :
    (∀ x : List Char,
      ensureRefFormat (ensureRefFormat x) = ensureRefFormat x) ∧
    (∀ x : List Char,
      Part000.ensureRefFormat (Part000.ensureRefFormat x)
        = Part000.ensureRefFormat x) ∧
    ensureRefFormat "main".toList = "refs/heads/main".toList ∧
    ensureRefFormat "refs/heads/main".toList = "refs/heads/main".toList ∧
    Part000.ensureRefFormat "main".toList = "refs/heads/main".toList ∧
    Part000.ensureRefFormat "refs/heads/main".toList
        = "refs/heads/main".toList := by
  refine ⟨fun x => ?_, fun x => ?_, by decide, by decide, by decide, by decide⟩
  · simp only [erf_eq_simple, simple_idem]
  · simp only [part000_erf_eq_simple, simple_idem]

/-- C7: the inner TrimPrefix of `ensureRefFormat` is dead code: in both
variants the function equals the simplified form that returns the input
when it starts with `refs/heads/` and prepends `refs/heads/` otherwise. -/
theorem c7_ensureRefFormat_simplified :
    (∀ x : List Char, ensureRefFormat x = ensureRefFormatSimple x) ∧
    (∀ x : List Char, Part000.ensureRefFormat x = ensureRefFormatSimple x) :=
  ⟨erf_eq_simple, part000_erf_eq_simple⟩

/-- C9: when a URL contains both `dev.azure.com` and `.visualstudio.com`,
the parser applies the `dev.azure.com` branch and never the
`.visualstudio.com` branch. -/
theorem c9_dev_precedence :
    ∀ u : List Char, goContains u devAzureHost = true →
      goContains u vsHost = true →
      parseAzureDevOpsURL u = devAzureRule u := by
  intro u h1 _h2
  simp [parseAzureDevOpsURL, h1]

/-- Witness for C9 at a URL containing both host fragments. -/
theorem c9_dev_precedence_witness :
    goContains "https://dev.azure.com/a.visualstudio.com/p/_git/r".toList
        devAzureHost = true ∧
    goContains "https://dev.azure.com/a.visualstudio.com/p/_git/r".toList
        vsHost = true ∧
    parseAzureDevOpsURL
        "https://dev.azure.com/a.visualstudio.com/p/_git/r".toList
      = devAzureRule "https://dev.azure.com/a.visualstudio.com/p/_git/r".toList :=
  ⟨by decide, by decide,
    c9_dev_precedence "https://dev.azure.com/a.visualstudio.com/p/_git/r".toList
      (by decide) (by decide)⟩

/-- C2 counterexample: `https://github.com/acme/widgets` contains neither
`dev.azure.com` nor `.visualstudio.com`, yet the variant with the parse
inlined into `OpenPR` does not reject it: it builds a connection from the
split segments, calls the client construction and the PR creation, and
returns the PR URL. -/
theorem c2_inline_no_host_check_cex :
    goContains "https://github.com/acme/widgets".toList devAzureHost = false ∧
    goContains "https://github.com/acme/widgets".toList vsHost = false ∧
    Part000.OpenPR "https://github.com/acme/widgets".toList
        [] [] [] [] ⟨"tok".toList⟩
        (⟨.ok (), .ok none, .ok "prurl".toList⟩ : GitEnv Nat)
      = (.ok "prurl".toList, [.newClient, .createPullRequest]) := by
  decide

/-- C2 (amended): for every URL containing neither `dev.azure.com` nor
`.visualstudio.com` the standalone parser returns the `unsupported` error;
the variant with the parse inlined into `OpenPR` never inspects the host:
it rejects a URL exactly when the split after prefix-trimming has fewer
than 4 segments, and otherwise proceeds to build a connection (the
client-construction call is made). -/
theorem c2_parse_unsupported :
    (∀ u : List Char, goContains u devAzureHost = false →
      goContains u vsHost = false →
      parseAzureDevOpsURL u = .err unsupportedMsg) ∧
    (∀ (υ : Type) (u t d tb sb : List Char) (creds : RepoCredentials)
        (env : GitEnv υ),
      (goSplit '/' (goTrimPre u httpsDevAzure)).length < 4 →
      Part000.OpenPR u t d tb sb creds env = (.err invalidMsg, [])) ∧
    (∀ (υ : Type) (u t d tb sb : List Char) (creds : RepoCredentials)
        (env : GitEnv υ),
      4 ≤ (goSplit '/' (goTrimPre u httpsDevAzure)).length →
      ExtCall.newClient ∈ (Part000.OpenPR u t d tb sb creds env).2) := by
  refine ⟨?_, ?_, ?_⟩
  · intro u h1 h2
    simp [parseAzureDevOpsURL, h1, h2]
  · intro υ u t d tb sb creds env h
    simp [Part000.OpenPR, h]
  · intro υ u t d tb sb creds env h
    simp only [Part000.OpenPR]
    generalize goSplit '/' (goTrimPre u httpsDevAzure) = L at h ⊢
    rcases L with _ | ⟨s0, L⟩
    · simp at h
    rcases L with _ | ⟨s1, L⟩
    · simp at h
    rcases L with _ | ⟨s2, L⟩
    · simp at h
    rcases L with _ | ⟨s3, L⟩
    · simp at h
    rw [if_neg (by simp only [List.length_cons]; omega)]
    simp only [List.getElem?_cons_zero, List.getElem?_cons_succ]
    rcases env.newClient with e | u2
    · simp
    · rcases env.createPullRequest with e | url <;> simp

/-- Witness for C2 (amended) at concrete inputs: an SSH-style URL for the
standalone parser, a 1-segment URL for the inline rejection, and a
4-segment non-Azure URL on which the inline variant proceeds. -/
theorem c2_parse_unsupported_witness :
    parseAzureDevOpsURL "git@github.com:acme/widgets".toList
        = .err unsupportedMsg ∧
    Part000.OpenPR "https://dev.azure.com/o".toList [] [] [] []
        ⟨"t".toList⟩ (⟨.ok (), .ok none, .ok []⟩ : GitEnv Nat)
      = (.err invalidMsg, []) ∧
    ExtCall.newClient ∈
      (Part000.OpenPR "https://github.com/acme/widgets".toList [] [] [] []
        ⟨"t".toList⟩ (⟨.ok (), .ok none, .ok []⟩ : GitEnv Nat)).2 :=
  ⟨c2_parse_unsupported.1 "git@github.com:acme/widgets".toList
      (by decide) (by decide),
   c2_parse_unsupported.2.1 Nat "https://dev.azure.com/o".toList [] [] [] []
      ⟨"t".toList⟩ ⟨.ok (), .ok none, .ok []⟩ (by decide),
   c2_parse_unsupported.2.2 Nat "https://github.com/acme/widgets".toList
      [] [] [] [] ⟨"t".toList⟩ ⟨.ok (), .ok none, .ok []⟩ (by decide)⟩

/-- C3 counterexample: the URL
`https://myorg.visualstudio.com/dev.azure.com/x/repo` has the
`.visualstudio.com` shape with project segment `dev.azure.com`, but because
it contains `dev.azure.com` the parser takes the first branch and returns
`("https:", "", "dev.azure.com")` instead of the claimed
`("myorg", "dev.azure.com", "repo")`. -/
theorem c3_vs_shape_dev_host_cex :
    parseAzureDevOpsURL
        "https://myorg.visualstudio.com/dev.azure.com/x/repo".toList
      = .ok ("https:".toList, [], "dev.azure.com".toList) ∧
    parseAzureDevOpsURL
        "https://myorg.visualstudio.com/dev.azure.com/x/repo".toList
      ≠ .ok ("myorg".toList, "dev.azure.com".toList, "repo".toList) := by
  decide

/-- C3 (amended): for every URL of the shape
`https://dev.azure.com/` o `/` p `/_git/` r with slash-free segments the
parser returns exactly (o, p, r with `.git` stripped); and for every URL of
the shape `https://` o `.visualstudio.com/` p `/` mid `/` r with slash-free
segments and dot-free o that does not contain `dev.azure.com`, the
standalone parser returns (o, p, r) by the same rule. -/
theorem c3_parse_shapes :
    (∀ o p r : List Char, '/' ∉ o → '/' ∉ p → '/' ∉ r →
      parseAzureDevOpsURL
          (httpsDevAzure ++
            (o ++ '/' :: (p ++ '/' :: ("_git".toList ++ '/' :: r))))
        = .ok (o, p, goTrimSuf r gitSuf)) ∧
    (∀ o p mid r : List Char,
      '.' ∉ o → '/' ∉ o → '/' ∉ p → '/' ∉ mid → '/' ∉ r →
      goContains ("https://".toList ++
        ((o ++ '.' :: "visualstudio.com".toList) ++
          '/' :: (p ++ '/' :: (mid ++ '/' :: r)))) devAzureHost = false →
      parseAzureDevOpsURL ("https://".toList ++
        ((o ++ '.' :: "visualstudio.com".toList) ++
          '/' :: (p ++ '/' :: (mid ++ '/' :: r))))
        = .ok (o, p, goTrimSuf r gitSuf)) :=
  ⟨devShape_parse, vsShape_parse⟩

/-- Witness for C3 (amended) at concrete segments. -/
theorem c3_parse_shapes_witness :
    parseAzureDevOpsURL (httpsDevAzure ++
        ("myorg".toList ++ '/' :: ("myproj".toList ++ '/' ::
          ("_git".toList ++ '/' :: "myrepo".toList))))
      = .ok ("myorg".toList, "myproj".toList,
          goTrimSuf "myrepo".toList gitSuf) ∧
    parseAzureDevOpsURL ("https://".toList ++
        (("myorg".toList ++ '.' :: "visualstudio.com".toList) ++
          '/' :: ("myproj".toList ++ '/' ::
            ("_git".toList ++ '/' :: "myrepo".toList))))
      = .ok ("myorg".toList, "myproj".toList,
          goTrimSuf "myrepo".toList gitSuf) :=
  ⟨c3_parse_shapes.1 "myorg".toList "myproj".toList "myrepo".toList
      (by decide) (by decide) (by decide),
   c3_parse_shapes.2 "myorg".toList "myproj".toList "_git".toList
      "myrepo".toList (by decide) (by decide) (by decide) (by decide)
      (by decide) (by decide)⟩

/-- C5: `getRepositoryID` returns the ID of a repository whose name equals
the requested one when such a repository is in the listing; it wraps and
returns the listing error when the listing call errors; and when the
listing succeeds (possibly nil or empty) with no match it returns an error
whose message contains both the repository and the project names. -/
theorem c5_getRepositoryID_spec :
    (∀ (υ : Type) (project repository e : List Char),
      getRepositoryID project repository
          (Except.error e :
            Except (List Char) (Option (List (GitRepository υ))))
        = .error (errListing ++ e)) ∧
    (∀ (υ : Type) (project repository : List Char)
        (repos : List (GitRepository υ)),
      (∃ r ∈ repos, r.name = repository) →
      ∃ r ∈ repos, r.name = repository ∧
        getRepositoryID project repository (.ok (some repos)) = .ok r.id) ∧
    (∀ (υ : Type) (project repository : List Char)
        (reposOpt : Option (List (GitRepository υ))),
      (∀ repos, reposOpt = some repos → ∀ r ∈ repos, r.name ≠ repository) →
      getRepositoryID project repository (.ok reposOpt)
          = .error (notFoundMsg repository project) ∧
      goContains (notFoundMsg repository project) repository = true ∧
      goContains (notFoundMsg repository project) project = true) := by
  refine ⟨?_, ?_, ?_⟩
  · intro υ project repository e
    rfl
  · intro υ project repository repos h
    obtain ⟨r, hfind, hmem, hname⟩ := findRepo_of_mem repository repos h
    exact ⟨r, hmem, hname, by simp [getRepositoryID, hfind]⟩
  · intro υ project repository reposOpt h
    refine ⟨?_, ?_, ?_⟩
    · cases reposOpt with
      | none => rfl
      | some rs =>
        have hnone := findRepo_of_no_match repository rs (h rs rfl)
        simp [getRepositoryID, hnone]
    · simp only [notFoundMsg, List.append_assoc]
      exact goContains_mid "repository \x27".toList repository
        ("\x27 not found in project \x27".toList ++
          (project ++ "\x27".toList))
    · simp only [notFoundMsg, List.append_assoc]
      apply goContains_append_left "repository \x27".toList
      apply goContains_append_left repository
      exact goContains_mid "\x27 not found in project \x27".toList project
        "\x27".toList

/-- Witness for C5 at concrete listings: a failed listing, a singleton
listing with a match, and a nil listing. -/
theorem c5_getRepositoryID_spec_witness :
    getRepositoryID "p".toList "r".toList
        (Except.error "boom".toList :
          Except (List Char) (Option (List (GitRepository Nat))))
      = .error (errListing ++ "boom".toList) ∧
    (∃ r ∈ [(⟨"r".toList, some 7⟩ : GitRepository Nat)],
      r.name = "r".toList ∧
      getRepositoryID "p".toList "r".toList
          (.ok (some [⟨"r".toList, some 7⟩])) = .ok r.id) ∧
    (getRepositoryID "p".toList "r".toList
        (Except.ok none :
          Except (List Char) (Option (List (GitRepository Nat))))
      = .error (notFoundMsg "r".toList "p".toList) ∧
    goContains (notFoundMsg "r".toList "p".toList) "r".toList = true ∧
    goContains (notFoundMsg "r".toList "p".toList) "p".toList = true) :=
  ⟨c5_getRepositoryID_spec.1 Nat "p".toList "r".toList "boom".toList,
   c5_getRepositoryID_spec.2.1 Nat "p".toList "r".toList
     [⟨"r".toList, some 7⟩] ⟨⟨"r".toList, some 7⟩, by decide, rfl⟩,
   c5_getRepositoryID_spec.2.2 Nat "p".toList "r".toList none
     (fun rs hrs => Option.noConfusion hrs)⟩

/-- C8: for every string containing `dev.azure.com` whose split after
prefix-trimming has at least 4 segments, the parse succeeds and returns
segments 0, 1 and 3 (with `.git` stripped), regardless of segment
content. -/
theorem c8_dev_count_only :
    ∀ u : List Char, goContains u devAzureHost = true →
      4 ≤ (goSplit '/' (goTrimPre u httpsDevAzure)).length →
      ∃ o p r : List Char,
        (goSplit '/' (goTrimPre u httpsDevAzure))[0]? = some o ∧
        (goSplit '/' (goTrimPre u httpsDevAzure))[1]? = some p ∧
        (goSplit '/' (goTrimPre u httpsDevAzure))[3]? = some r ∧
        parseAzureDevOpsURL u = .ok (o, p, goTrimSuf r gitSuf) := by
  intro u hc hlen
  simp only [parseAzureDevOpsURL, devAzureRule]
  rw [if_pos hc]
  generalize goSplit '/' (goTrimPre u httpsDevAzure) = L at hlen ⊢
  rcases L with _ | ⟨s0, L⟩
  · simp at hlen
  rcases L with _ | ⟨s1, L⟩
  · simp at hlen
  rcases L with _ | ⟨s2, L⟩
  · simp at hlen
  rcases L with _ | ⟨s3, L⟩
  · simp at hlen
  rw [if_neg (by simp only [List.length_cons]; omega)]
  simp only [List.getElem?_cons_zero, List.getElem?_cons_succ]
  exact ⟨s0, s1, s3, rfl, rfl, rfl, rfl⟩

/-- Witness for C8 at a URL that does not begin with
`https://dev.azure.com/` and whose segment 2 is not `_git`. -/
theorem c8_dev_count_only_witness :
    goContains "xdev.azure.comx/a/b/c".toList devAzureHost = true ∧
    (∃ o p r : List Char,
      (goSplit '/' (goTrimPre "xdev.azure.comx/a/b/c".toList
        httpsDevAzure))[0]? = some o ∧
      (goSplit '/' (goTrimPre "xdev.azure.comx/a/b/c".toList
        httpsDevAzure))[1]? = some p ∧
      (goSplit '/' (goTrimPre "xdev.azure.comx/a/b/c".toList
        httpsDevAzure))[3]? = some r ∧
      parseAzureDevOpsURL "xdev.azure.comx/a/b/c".toList
        = .ok (o, p, goTrimSuf r gitSuf)) :=
  ⟨by decide,
   c8_dev_count_only "xdev.azure.comx/a/b/c".toList (by decide) (by decide)⟩

/-- C10: when the listing contains a matching repository, the result is the
ID of the earliest match, whatever follows it (including duplicates). -/
theorem c10_first_match :
    ∀ (υ : Type) (project repository : List Char)
      (l₁ l₂ : List (GitRepository υ)) (r : GitRepository υ),
      (∀ x ∈ l₁, x.name ≠ repository) → r.name = repository →
      getRepositoryID project repository (.ok (some (l₁ ++ r :: l₂)))
        = .ok r.id := by
  intro υ project repository l₁ l₂ r h₁ hr
  simp [getRepositoryID, findRepo_append_first repository l₁ l₂ r h₁ hr]

/-- Witness for C10: two repositories named `r` with different IDs; the
first one's ID is returned. -/
theorem c10_first_match_witness :
    getRepositoryID "p".toList "r".toList
        (.ok (some [(⟨"a".toList, some 1⟩ : GitRepository Nat),
          ⟨"r".toList, some 2⟩, ⟨"r".toList, some 3⟩]))
      = .ok (some 2) :=
  c10_first_match Nat "p".toList "r".toList [⟨"a".toList, some 1⟩]
    [⟨"r".toList, some 3⟩] ⟨"r".toList, some 2⟩ (by decide) rfl
